import Mathlib

/-!
Verification of the asset-selector HTTP API client core: the JWT token
generator (src/js/token-generator.js) and the response normalizer
(src/js/config.js), embedded shallowly.  JavaScript objects are modelled
as association lists of string keys, JavaScript values as a small JSON
value type, and absent fields (undefined) as `Option.none`.  Platform
built-ins that the code calls (atob, JSON.parse, regular-expression
matching, decodeURIComponent) are not part of the repository; they enter
the model as explicit function parameters and are instantiated with
concrete functions, consistent with the platform behaviour on the inputs
used, wherever a concrete evaluation is required.
-/

/-- A JavaScript/JSON value.  Numbers are modelled as integers: every
numeric literal appearing in the modelled code paths is an integer, and
no claim exercises fractional arithmetic. -/
inductive JSValue where
  | null
  | bool (b : Bool)
  | num (n : Int)
  | str (s : String)
  | arr (xs : List JSValue)
  | obj (fields : List (String × JSValue))

/-- JavaScript strict equality `===` restricted to the cases it can
return true for: primitives compare by value, while two separately
constructed objects or arrays are never identical. -/
def jsStrictEq (a b : JSValue) : Bool :=
  match a, b with
  | .null, .null => true
  | .bool x, .bool y => x == y
  | .num x, .num y => x == y
  | .str x, .str y => x == y
  | _, _ => false

/-- JavaScript truthiness.  `NaN` is not representable in the integer
model; the code paths under verification never compare `NaN` for
truthiness. -/
def truthy : JSValue → Bool
  | .null => false
  | .bool b => b
  | .num n => n != 0
  | .str s => s != ""
  | .arr _ => true
  | .obj _ => true

/-- Property read on a field list: the last binding of a key wins,
matching JavaScript object semantics (later assignments overwrite). -/
def objGetFields (fields : List (String × JSValue)) (k : String) : Option JSValue :=
  fields.foldl (fun acc p => if p.1 == k then some p.2 else acc) none

/-- `v[k]` in JavaScript: reading a property off a non-object yields
undefined (none) for the property names used by this code. -/
def objGet (v : JSValue) (k : String) : Option JSValue :=
  match v with
  | .obj fields => objGetFields fields k
  | _ => none

/-- `a || b` on possibly-undefined values: the first operand if it is
present and truthy, otherwise the second. -/
def jsOr (a b : Option JSValue) : Option JSValue :=
  match a with
  | some v => if truthy v then some v else b
  | none => b

/-- `a || d` where the fallback is a definite value. -/
def jsOrDefault (a : Option JSValue) (d : JSValue) : JSValue :=
  match a with
  | some v => if truthy v then v else d
  | none => d

/-- `o[k] = v` on a JavaScript object modelled as a field list: an
existing binding is overwritten in place, a new key is appended. -/
def jsInsert (o : List (String × JSValue)) (k : String) (v : JSValue) :
    List (String × JSValue) :=
  if o.any (fun p => p.1 == k) then
    o.map (fun p => if p.1 == k then (k, v) else p)
  else
    o ++ [(k, v)]

/-- The keys of a field list, in order. -/
def keysOf (o : List (String × α)) : List String := o.map Prod.fst

/-- Split a character list at every occurrence of `sep`, keeping empty
pieces — the semantics of JavaScript `String.prototype.split` with a
single-character separator. -/
def splitChars (sep : Char) : List Char → List (List Char)
  | [] => [[]]
  | c :: cs =>
    let r := splitChars sep cs
    if c = sep then [] :: r
    else
      match r with
      | [] => [[c]]
      | h :: t => (c :: h) :: t

/-- JavaScript `s.split(sep)` for a one-character separator. -/
def jsSplit (sep : Char) (s : String) : List String :=
  (splitChars sep s.data).map String.mk

/-- ASCII whitespace recognised by JavaScript `trim` (the Unicode space
classes beyond ASCII are not exercised by any input in this model). -/
def isJsSpace (c : Char) : Bool :=
  c == ' ' || c == '\t' || c == '\n' || c == '\r' || c == '\x0b' || c == '\x0c'

/-- JavaScript `s.trim()`. -/
def jsTrim (s : String) : String :=
  String.mk (((s.data.dropWhile isJsSpace).reverse.dropWhile isJsSpace).reverse)

/-- `s.startsWith(p)` as a Boolean on the underlying character lists. -/
def strStartsWith (s p : String) : Bool := p.data.isPrefixOf s.data

/-- The scope key built by generateJWT for one metascope:
`https://{endpoint}/s/{scope}`. -/
def scopeKey (ep scope : String) : String := "https://" ++ ep ++ "/s/" ++ scope

/-- Service-account credentials as destructured by generateJWT
(src/js/token-generator.js, lines 16-23).  `metascopes` and
`imsEndpoint` are optional because the destructuring supplies defaults
only when the fields are absent (undefined). -/
structure Credentials where
  clientId : String
  technicalAccountId : String
  imsOrg : String
  metascopes : Option String
  imsEndpoint : Option String

/-- The four standard claims placed in the JWT payload object literal
(token-generator.js lines 35-40), in source order.  `now` is the issue
time in Unix seconds. -/
def stdClaims (ep : String) (c : Credentials) (now : Int) : List (String × JSValue) :=
  [("exp", .num (now + 24 * 60 * 60)),
   ("iss", .str c.imsOrg),
   ("sub", .str c.technicalAccountId),
   ("aud", .str ("https://" ++ ep ++ "/c/" ++ c.clientId))]

/-- The JWT payload built by `AdobeTokenGenerator.generateJWT`
(token-generator.js lines 15-51): the standard-claims object literal,
then one `payload[key] = true` assignment per comma-separated, trimmed
metascope.  Signing (lines 48-50) is outside the payload model. -/
def generateJWTPayload (c : Credentials) (now : Int) : List (String × JSValue) :=
  let ep := c.imsEndpoint.getD "ims-na1.adobelogin.com"
  let ms := c.metascopes.getD "ent_aem_cloud_api"
  let scopesList := (jsSplit ',' ms).map jsTrim
  scopesList.foldl (fun acc scope => jsInsert acc (scopeKey ep scope) (.bool true))
    (stdClaims ep c now)

/-- `AdobeTokenGenerator.convertPKCS1ToPKCS8` (token-generator.js lines
140-168) on the byte level: bytes are naturals below 256.  The
26-byte header is written into a fresh buffer of size totalLength + 4
followed by the PKCS#1 bytes at offset 26 (which together fill the
buffer exactly), then the two 16-bit big-endian length fields are
patched at offsets 2-3 and 24-25. -/
def convertPKCS1ToPKCS8 (pkcs1Bytes : List Nat) : List Nat :=
  let pkcs8Header : List Nat :=
    [0x30, 0x82, 0x00, 0x00,
     0x02, 0x01, 0x00,
     0x30, 0x0d,
     0x06, 0x09,
     0x2a, 0x86, 0x48, 0x86, 0xf7, 0x0d, 0x01, 0x01, 0x01,
     0x05, 0x00,
     0x04, 0x82, 0x00, 0x00]
  let pkcs1Length := pkcs1Bytes.length
  let totalLength := pkcs8Header.length + pkcs1Length - 4
  let buf := pkcs8Header ++ pkcs1Bytes
  let buf := buf.set 2 ((totalLength / 256) % 256)
  let buf := buf.set 3 (totalLength % 256)
  let buf := buf.set 24 ((pkcs1Length / 256) % 256)
  let buf := buf.set 25 (pkcs1Length % 256)
  buf

/-- The fixed ASN.1 prefix with its two big-endian 16-bit length fields
filled in for a PKCS#1 payload of length `L`, as the claim describes it. -/
def patchedPrefix (L : Nat) : List Nat :=
  [0x30, 0x82, ((L + 22) / 256) % 256, (L + 22) % 256,
   0x02, 0x01, 0x00,
   0x30, 0x0d,
   0x06, 0x09,
   0x2a, 0x86, 0x48, 0x86, 0xf7, 0x0d, 0x01, 0x01, 0x01,
   0x05, 0x00,
   0x04, 0x82, (L / 256) % 256, L % 256]

/-- Fuel-indexed JavaScript `String(v)` conversion; the fuel only bounds
array nesting depth and `toJSString` always supplies enough.  Arrays
join their elements with commas, null elements print as the empty
string, objects print as `[object Object]`. -/
def toJSStringFuel : Nat → JSValue → String
  | _, .null => "null"
  | _, .bool b => if b then "true" else "false"
  | _, .num n => toString n
  | _, .str s => s
  | _, .obj _ => "[object Object]"
  | 0, .arr _ => ""
  | fuel + 1, .arr xs =>
    String.intercalate ","
      (xs.map (fun v => match v with | .null => "" | w => toJSStringFuel fuel w))

/-- JavaScript `String(v)`.  The fuel bounds only the array nesting
depth at which string conversion stays exact; 1000 exceeds the nesting
of every payload this client handles (recursion over the nested
inductive is not structural, so a fuel bound keeps the definition
kernel-computable). -/
def toJSString (v : JSValue) : String := toJSStringFuel 1000 v

/-- Template-literal interpolation of a possibly-undefined value:
an undefined field prints as the string `undefined`. -/
def jsTemplate (o : Option JSValue) : String :=
  match o with
  | none => "undefined"
  | some v => toJSString v

/-- The digits of a character list as a natural number, when the list is
nonempty and all digits. -/
def parseDigits (cs : List Char) : Option Nat :=
  match cs with
  | [] => none
  | _ =>
    if cs.all Char.isDigit then
      some (cs.foldl (fun a c => a * 10 + (c.toNat - 48)) 0)
    else none

/-- JavaScript ToNumber on a string, within the integer model: trimmed
empty string is 0, an optionally signed run of decimal digits is that
integer; every other shape (fractions, exponents, hex, Infinity) is not
integer-representable and is treated as NaN (`none`).  No modelled code
path feeds such a string to a numeric context. -/
def jsStrToInt? (s : String) : Option Int :=
  let t := ((s.data.dropWhile isJsSpace).reverse.dropWhile isJsSpace).reverse
  match t with
  | [] => some (0 : Int)
  | '-' :: rest => (parseDigits rest).map (fun n => -(n : Int))
  | '+' :: rest => (parseDigits rest).map (fun n => (n : Int))
  | _ => (parseDigits t).map (fun n => (n : Int))

/-- JavaScript ToNumber in the integer model; `none` stands for NaN.
Arrays and objects convert via their string form (ToPrimitive). -/
def jsToNumber? : JSValue → Option Int
  | .num n => some n
  | .bool b => some (if b then 1 else 0)
  | .null => some (0 : Int)
  | .str s => jsStrToInt? s
  | .arr xs => jsStrToInt? (toJSString (.arr xs))
  | .obj fs => jsStrToInt? (toJSString (.obj fs))

/-- The base64url-to-base64 character fixup applied by decodeJWT before
calling atob: `-` becomes `+` and `_` becomes `/`. -/
def b64UrlFix (s : String) : String :=
  String.mk (s.data.map (fun c => if c = '-' then '+' else if c = '_' then '/' else c))

/-- Whether a character belongs to the base64url alphabet. -/
def isB64UrlChar (c : Char) : Bool :=
  (65 ≤ c.toNat && c.toNat ≤ 90) || (97 ≤ c.toNat && c.toNat ≤ 122) ||
  (48 ≤ c.toNat && c.toNat ≤ 57) || c == '-' || c == '_'

/-- Whether a string consists only of base64url characters. -/
def isB64UrlString (s : String) : Bool := s.data.all isB64UrlChar

/-- `AdobeTokenGenerator.decodeJWT` (token-generator.js lines 286-300).
The platform built-ins `JSON.parse` and `atob` are not repository code;
their composition is the abstract parameter `parse`, applied to a
segment after the base64url fixup.  The token must split into exactly
three dot-separated parts; the header and payload segments must both
parse (a failure of either throws in the source, modelled as `none`);
the signature segment is never examined. -/
def decodeJWT (parse : String → Option JSValue) (token : String) : Option JSValue :=
  let parts := jsSplit '.' token
  if parts.length = 3 then
    match parse (b64UrlFix (parts.getD 0 "")), parse (b64UrlFix (parts.getD 1 "")) with
    | some _, some payload => some payload
    | _, _ => none
  else none

/-- `AdobeTokenGenerator.isTokenExpired` (token-generator.js lines
305-313): decode, multiply `payload.exp` by 1000 and compare with the
current time in milliseconds; any decode failure is caught and reported
as expired.  A missing or non-numeric `exp` makes the product NaN, and
`now >= NaN` is false. -/
def isTokenExpired (parse : String → Option JSValue) (nowMs : Int) (token : String) : Bool :=
  match decodeJWT parse token with
  | none => true
  | some payload =>
    match objGet payload "exp" with
    | none => false
    | some v =>
      match jsToNumber? v with
      | some e => decide (nowMs ≥ e * 1000)
      | none => false

/-- Whether `needle` occurs as a contiguous run inside `hay`. -/
def isInfixOfChars (needle : List Char) : List Char → Bool
  | [] => needle.isEmpty
  | c :: cs => needle.isPrefixOf (c :: cs) || isInfixOfChars needle cs

/-- `t.includes(s)` on strings: substring containment. -/
def strIncludes (t s : String) : Bool := isInfixOfChars s.data t.data

/-- `l.rel?.includes(tag)` from normalizeAsset: optional chaining makes
an absent `rel` falsy; an array uses `Array.prototype.includes` (strict
equality, so only an exactly equal string element matches); a string
uses substring containment.  Calling `includes` on a number or boolean
would throw in JavaScript; no such link shape reaches this code and the
model renders it false. -/
def relIncludes (rel : Option JSValue) (tag : String) : Bool :=
  match rel with
  | some (.arr xs) => xs.any (fun v => jsStrictEq v (.str tag))
  | some (.str t) => strIncludes t tag
  | _ => false

/-- A normalized asset record.  Each branch of the normalizer builds a
JavaScript object literal with its own set of fields; a field the branch
does not mention is undefined, i.e. `none`. -/
structure Asset where
  id : Option JSValue := none
  name : Option JSValue := none
  path : Option JSValue := none
  title : Option JSValue := none
  description : Option JSValue := none
  mimeType : Option JSValue := none
  size : Option JSValue := none
  created : Option JSValue := none
  modified : Option JSValue := none
  thumbnail : Option JSValue := none
  contentUrl : Option JSValue := none
  metadata : Option JSValue := none

/-- The `links.find(l => l.rel?.includes(tag))` lookup. -/
def findLink (links : List JSValue) (tag : String) : Option JSValue :=
  links.find? (fun l => relIncludes (objGet l "rel") tag)

/-- The path derivation of normalizeAsset (config.js lines 437-444):
when the self link is a nonempty string and the API-asset pattern
matches, the canonical DAM root is prefixed to the decoded capture;
otherwise the path stays empty.  `apiMatch` models
`s.match(/\/api\/assets(\/[^?]+)\.json/)` returning the first capture
group, `uriDecode` models `decodeURIComponent`; both are platform
primitives.  A truthy non-string href would make `.match` throw in
JavaScript; no claim evaluates such an input. -/
def pathFromSelfLink (apiMatch : String → Option String) (uriDecode : String → String) :
    JSValue → String
  | .str s =>
    if s != "" then
      match apiMatch s with
      | some captured => "/content/dam" ++ uriDecode captured
      | none => ""
    else ""
  | _ => ""

/-- `AEMAssetAPI.normalizeAsset` (config.js lines 427-460).  The
platform primitives are parameters: `apiMatch` models
`selfLink.match(/\/api\/assets(\/[^?]+)\.json/)` returning the first
capture group when the pattern matches, and `uriDecode` models
`decodeURIComponent`.  A links field that is truthy but not an array
would make `links.find` throw in JavaScript; the model treats it as an
empty list, and no claim evaluates such an input. -/
def normalizeAsset (apiMatch : String → Option String) (uriDecode : String → String)
    (entity : JSValue) : Asset :=
  let props := jsOrDefault (objGet entity "properties") (.obj [])
  let metadata := jsOrDefault (objGet props "metadata") (.obj [])
  let links :=
    match jsOrDefault (objGet entity "links") (.arr []) with
    | .arr xs => xs
    | _ => []
  let selfLink := jsOrDefault (match findLink links "self" with
                               | some l => objGet l "href"
                               | none => none) (.str "")
  let contentLink := jsOrDefault (match findLink links "content" with
                                  | some l => objGet l "href"
                                  | none => none) (.str "")
  let path := pathFromSelfLink apiMatch uriDecode selfLink
  { id := jsOr (objGet props "fmUuid") (objGet props "name"),
    name := some (jsOrDefault (objGet props "name") (.str "")),
    path := some (.str path),
    title := some (jsOrDefault (jsOr (objGet metadata "dc:title") (objGet props "name"))
                     (.str "")),
    description := some (jsOrDefault (objGet metadata "dc:description") (.str "")),
    mimeType := some (jsOrDefault (objGet metadata "dc:format") (.str "")),
    size := some (jsOrDefault (jsOr (objGet metadata "dam:size") (objGet props "size"))
                    (.num 0)),
    created := objGet props "jcr:created",
    modified := objGet props "jcr:lastModified",
    thumbnail := match findLink links "thumbnail" with
                 | some l => objGet l "href"
                 | none => none,
    contentUrl := some contentLink,
    metadata := some props }

/-- One child of the children-shape branch of normalizeListResponse
(config.js lines 377-385). -/
def childAsset (child : JSValue) : Asset :=
  { id := jsOr (objGet child "id") (objGet child "name"),
    name := objGet child "name",
    path := jsOr (objGet child "path")
              (some (.str ("/content/dam/" ++ jsTemplate (objGet child "name")))),
    title := jsOr (objGet child "title") (objGet child "name"),
    mimeType := objGet child "mimeType",
    size := jsOr (objGet child "size") (some (.num 0)),
    metadata := some child }

/-- One asset of the flat-properties branch of normalizeListResponse
(config.js lines 397-404), built from a key of the response and its
node value. -/
def flatAsset (key : String) (node : JSValue) : Asset :=
  { id := some (.str key),
    name := some (.str key),
    path := some (.str ("/content/dam/" ++ key)),
    title := some (jsOrDefault (objGet node "jcr:title") (.str key)),
    mimeType := objGet node "jcr:mimeType",
    metadata := some node }

/-- Whether a value is a truthy object carrying a truthy
`jcr:primaryType` marker — the flat-branch filter
`response[key] && typeof response[key] === 'object' &&
response[key]['jcr:primaryType']`.  Arrays have `typeof` object but no
such key; null is falsy. -/
def isNodeWithPrimaryType : JSValue → Bool
  | .obj fs => match objGetFields fs "jcr:primaryType" with
               | some v => truthy v
               | none => false
  | _ => false

/-- The record returned by normalizeListResponse: an assets list, a
properties value (undefined in the entity branch when the response has
none), a total, and the raw response. -/
structure ListResult where
  assets : List Asset
  properties : Option JSValue
  total : JSValue
  raw : JSValue

/-- `response.properties?.['srn:paging']?.total`: each `?.` yields
undefined when its receiver is undefined or null, and reading a
property off a non-object yields undefined. -/
def optChainGet (v : Option JSValue) (k : String) : Option JSValue :=
  match v with
  | none => none
  | some .null => none
  | some w => objGet w k

/-- The nested paging total read by the entity branch. -/
def pagingTotal (response : JSValue) : Option JSValue :=
  optChainGet (optChainGet (objGet response "properties") "srn:paging") "total"

/-- Entity-collection branch result (config.js lines 359-372). -/
def entitiesResult (apiMatch : String → Option String) (uriDecode : String → String)
    (response : JSValue) (es : List JSValue) : ListResult :=
  { assets := es.map (normalizeAsset apiMatch uriDecode),
    properties := objGet response "properties",
    total := jsOrDefault (pagingTotal response) (.num es.length),
    raw := response }

/-- Children branch result (config.js lines 375-389). -/
def childrenResult (response : JSValue) (cs : List JSValue) : ListResult :=
  { assets := cs.map childAsset,
    properties := some (jsOrDefault (objGet response "properties") (.obj [])),
    total := .num cs.length,
    raw := response }

/-- Flat-properties branch result (config.js lines 393-412): scan the
response keys in order for nodes carrying a primary-type marker. -/
def flatResult (response : JSValue) (pt : JSValue) : ListResult :=
  let fields := match response with | .obj fs => fs | _ => []
  { assets := (fields.filter (fun p => isNodeWithPrimaryType p.2)).map
                (fun p => flatAsset p.1 p.2),
    properties := some (.obj [("jcr:primaryType", pt)]),
    total := .num (fields.filter (fun p => isNodeWithPrimaryType p.2)).length,
    raw := response }

/-- Unknown-shape fallback (config.js lines 416-421). -/
def unknownResult (response : JSValue) : ListResult :=
  { assets := [], properties := some (.obj []), total := .num 0, raw := response }

/-- `AEMAssetAPI.normalizeListResponse` (config.js lines 355-422).
The guards translate the source conditions: `response.entities &&
Array.isArray(response.entities)` holds exactly when the field is an
array (arrays are always truthy), likewise for children, and the flat
branch fires on a truthy `jcr:primaryType`. -/
def normalizeListResponse (apiMatch : String → Option String)
    (uriDecode : String → String) (response : JSValue) : ListResult :=
  match objGet response "entities" with
  | some (.arr es) => entitiesResult apiMatch uriDecode response es
  | _ =>
    match objGet response "children" with
    | some (.arr cs) => childrenResult response cs
    | _ =>
      match objGet response "jcr:primaryType" with
      | some pt => if truthy pt then flatResult response pt else unknownResult response
      | none => unknownResult response

/-- Shape predicate of the entity-collection branch, stated on its own
as the spec describes the dispatch table. -/
def entitiesShape (response : JSValue) : Bool :=
  match objGet response "entities" with
  | some (.arr _) => true
  | _ => false

/-- Shape predicate of the children branch. -/
def childrenShape (response : JSValue) : Bool :=
  match objGet response "children" with
  | some (.arr _) => true
  | _ => false

/-- Shape predicate of the flat-properties branch. -/
def flatShape (response : JSValue) : Bool :=
  match objGet response "jcr:primaryType" with
  | some pt => truthy pt
  | none => false

/-- Modelled from the spec: the normalizer as an ordered list of
(predicate, handler) pairs evaluated in the fixed priority order of
section 4.2 — entity collection, then children, then flat properties,
then the unknown-shape fallback, first match winning. -/
def specListDispatch (apiMatch : String → Option String)
    (uriDecode : String → String) (response : JSValue) : ListResult :=
  if entitiesShape response then
    match objGet response "entities" with
    | some (.arr es) => entitiesResult apiMatch uriDecode response es
    | _ => unknownResult response
  else if childrenShape response then
    match objGet response "children" with
    | some (.arr cs) => childrenResult response cs
    | _ => unknownResult response
  else if flatShape response then
    match objGet response "jcr:primaryType" with
    | some pt => flatResult response pt
    | none => unknownResult response
  else unknownResult response

/-- A concrete instance of the platform decode chain `JSON.parse(atob(s))`
for the token of the signature-segment counterexample: on the two
segments that decodeJWT actually feeds to the chain — the base64url
encodings of the header `{"alg":"none"}` and of the payload
`{"exp":99999999999}` — it returns exactly the value the platform
returns; every other input is never consulted by that token. -/
def sigTokenParse : String → Option JSValue := fun s =>
  if s = "eyJhbGciOiJub25lIn0" then some (.obj [("alg", .str "none")])
  else if s = "eyJleHAiOjk5OTk5OTk5OTk5fQ" then some (.obj [("exp", .num 99999999999)])
  else none

/-- A concrete instance of the platform decode chain for a token whose
payload `{"iat":1}` has no exp claim (segments base64url encoded as in
the platform). -/
def noExpParse : String → Option JSValue := fun s =>
  if s = "eyJhbGciOiJub25lIn0" then some (.obj [("alg", .str "none")])
  else if s = "eyJpYXQiOjF9" then some (.obj [("iat", .num 1)])
  else none

/-- A concrete instance of the platform decode chain for a token whose
payload is `{"exp":"5"}` — an exp claim that is a JSON string, not a
number. -/
def strExpParse : String → Option JSValue := fun s =>
  if s = "eyJhbGciOiJub25lIn0" then some (.obj [("alg", .str "none")])
  else if s = "eyJleHAiOiI1In0" then some (.obj [("exp", .str "5")])
  else none

/-- The canonical metadata schema built by normalizeMetadataSchema: the
flat `properties` mapping and the `namespaces` buckets.  The `raw` field
of the source object merely stores the input and is omitted. -/
structure MetadataSchema where
  properties : List (String × JSValue)
  namespaces : List (String × List (String × JSValue))

/-- The filter of config.js line 533: internal JCR keys are skipped,
except the two display keys `jcr:title` and `jcr:description` which
fall through to normal processing. -/
def isSkippedJcr (key : String) : Bool :=
  strStartsWith key "jcr:" && key != "jcr:title" && key != "jcr:description"

/-- The namespace of a metadata key (config.js lines 543-545): the part
before the first colon when `key.indexOf(':') > 0`, the reserved
`_default` bucket otherwise (so also for a key starting with a colon). -/
def namespaceOf (key : String) : String :=
  match key.data.findIdx? (fun c => c = ':') with
  | some i => if 0 < i then String.mk (key.data.take i) else "_default"
  | none => "_default"

/-- `schema.namespaces[ns][key] = value` with bucket creation
(config.js lines 546-549 and 552-555). -/
def nsInsert (nss : List (String × List (String × JSValue))) (ns k : String)
    (v : JSValue) : List (String × List (String × JSValue)) :=
  if nss.any (fun p => p.1 == ns) then
    nss.map (fun p => if p.1 == ns then (ns, jsInsert p.2 k v) else p)
  else
    nss ++ [(ns, [(k, v)])]

/-- One iteration of the `Object.entries` loop of
normalizeMetadataSchema (config.js lines 531-557). -/
def metaStep (sch : MetadataSchema) (kv : String × JSValue) : MetadataSchema :=
  if isSkippedJcr kv.1 then
    if kv.1 == "jcr:primaryType" || kv.1 == "jcr:mixinTypes" then
      { sch with properties := jsInsert sch.properties kv.1 kv.2 }
    else sch
  else
    { properties := jsInsert sch.properties kv.1 kv.2,
      namespaces := nsInsert sch.namespaces (namespaceOf kv.1) kv.1 kv.2 }

/-- `AEMAssetAPI.normalizeMetadataSchema` (config.js lines 523-560) on
the entries of the response object, in order. -/
def normalizeMetadataSchema (response : List (String × JSValue)) : MetadataSchema :=
  response.foldl metaStep ⟨[], []⟩

/-- The keys present in some namespace bucket, flattened. -/
def nsFlatKeys (sch : MetadataSchema) : List String :=
  sch.namespaces.flatMap (fun p => keysOf p.2)

/-- The keys of the bucket named `ns`, or the empty list when no such
bucket exists. -/
def bucketKeys (nss : List (String × List (String × JSValue))) (ns : String) : List String :=
  match nss.find? (fun p => p.1 == ns) with
  | some p => keysOf p.2
  | none => []

/-- The invariant normalizeMetadataSchema maintains while folding over
the response entries: every properties key is either unskipped or one of
the two retained structural keys; every bucket entry names an existing
properties key and lives in the bucket of its own namespace; every
unskipped properties key is present in the bucket of its namespace; and
bucket names never repeat. -/
@[reducible] def MetaInv (sch : MetadataSchema) : Prop :=
  (∀ q ∈ sch.properties,
    isSkippedJcr q.1 = false ∨ q.1 = "jcr:primaryType" ∨ q.1 = "jcr:mixinTypes") ∧
  (∀ p ∈ sch.namespaces, ∀ q ∈ p.2,
    q.1 ∈ keysOf sch.properties ∧ p.1 = namespaceOf q.1) ∧
  (∀ q ∈ sch.properties, isSkippedJcr q.1 = false →
    q.1 ∈ bucketKeys sch.namespaces (namespaceOf q.1)) ∧
  (keysOf sch.namespaces).Nodup

/-! ## Theorems -/

/-- Claim C5: for every PKCS#1 byte sequence of length L < 65536,
convertPKCS1ToPKCS8 returns the fixed 26-byte ASN.1 prefix — outer
SEQUENCE, zero version INTEGER, RSA algorithm-identifier SEQUENCE with
OID and NULL, OCTET STRING tag — with the outer SEQUENCE length field
patched to the 16-bit big-endian value L + 22 and the OCTET STRING
length field patched to L, followed by the input bytes verbatim, for a
total length of L + 26. -/
theorem c5_pkcs8_wrapper_layout (bs : List Nat) (h : bs.length < 65536) :
    convertPKCS1ToPKCS8 bs = patchedPrefix bs.length ++ bs ∧
    (convertPKCS1ToPKCS8 bs).length = bs.length + 26 := by
  constructor
  · simp only [convertPKCS1ToPKCS8, patchedPrefix, List.length_cons, List.length_nil]
    rw [show (25 : Nat) + 1 + bs.length - 4 = bs.length + 22 from by omega]
    rfl
  · simp only [convertPKCS1ToPKCS8, List.length_set, List.length_append, List.length_cons,
      List.length_nil]
    omega

theorem str_data_append (a b : String) : (a ++ b).data = a.data ++ b.data := rfl

theorem str_eq_of_data_eq {a b : String} (h : a.data = b.data) : a = b := by
  cases a; cases b; exact congrArg String.mk h

theorem str_length_append (a b : String) : (a ++ b).length = a.length + b.length :=
  List.length_append a.data b.data

theorem scopeKey_injective {ep s₁ s₂ : String} (h : scopeKey ep s₁ = scopeKey ep s₂) :
    s₁ = s₂ := by
  have hd := congrArg String.data h
  simp only [scopeKey, str_data_append] at hd
  exact str_eq_of_data_eq (by simpa using hd)

theorem scopeKey_length (ep s : String) : (scopeKey ep s).length = 11 + ep.length + s.length := by
  have h1 : "https://".length = 8 := rfl
  have h2 : "/s/".length = 3 := rfl
  simp only [scopeKey, str_length_append, h1, h2]
  omega

theorem keysOf_append (a b : List (String × JSValue)) :
    keysOf (a ++ b) = keysOf a ++ keysOf b := by
  simp [keysOf]

theorem jsInsert_of_not_mem {o : List (String × JSValue)} {k : String} (v : JSValue)
    (h : k ∉ keysOf o) : jsInsert o k v = o ++ [(k, v)] := by
  have hany : o.any (fun p => p.1 == k) = false := by
    simp only [List.any_eq_false]
    intro p hp
    simp only [beq_iff_eq]
    intro he
    exact h (he ▸ List.mem_map_of_mem Prod.fst hp)
  simp [jsInsert, hany]

theorem foldl_objGet_of_no_key {k : String} :
    ∀ (l : List (String × JSValue)) (acc : Option JSValue),
      (∀ p ∈ l, (p.1 == k) = false) →
      l.foldl (fun acc p => if p.1 == k then some p.2 else acc) acc = acc := by
  intro l
  induction l with
  | nil => intro acc _; rfl
  | cons p ps ih =>
    intro acc h
    have hp := h p (List.mem_cons_self p ps)
    rw [List.foldl_cons, if_neg (by simp [hp])]
    exact ih acc (fun q hq => h q (List.mem_cons_of_mem p hq))

theorem foldl_objGet_map_overwrite {k : String} {v : JSValue} :
    ∀ (o : List (String × JSValue)) (acc : Option JSValue),
      o.any (fun p => p.1 == k) = true →
      (o.map (fun p => if p.1 == k then (k, v) else p)).foldl
        (fun acc p => if p.1 == k then some p.2 else acc) acc = some v := by
  intro o
  induction o with
  | nil => intro acc h; simp at h
  | cons p ps ih =>
    intro acc h
    by_cases hp : (p.1 == k) = true
    · rw [List.map_cons, if_pos hp, List.foldl_cons, if_pos (by simp)]
      by_cases hps : ps.any (fun q => q.1 == k) = true
      · exact ih (some v) hps
      · refine foldl_objGet_of_no_key _ _ ?_
        intro q hq
        rcases List.mem_map.mp hq with ⟨q₀, hq₀, rfl⟩
        have hq₀k : (q₀.1 == k) = false := by
          have := List.any_eq_false.mp (Bool.eq_false_iff.mpr hps) q₀ hq₀
          simpa using this
        simp [hq₀k]
    · have hp' : (p.1 == k) = false := by simpa using hp
      have hps : ps.any (fun q => q.1 == k) = true := by
        rcases List.any_eq_true.mp h with ⟨q, hq, hqk⟩
        rcases List.mem_cons.mp hq with rfl | hq'
        · simp [hqk] at hp'
        · exact List.any_eq_true.mpr ⟨q, hq', hqk⟩
      rw [List.map_cons, if_neg (by simp [hp']), List.foldl_cons,
        if_neg (by simp [hp'])]
      exact ih acc hps

theorem objGet_jsInsert_same (o : List (String × JSValue)) (k : String) (v : JSValue) :
    objGetFields (jsInsert o k v) k = some v := by
  by_cases hmem : o.any (fun p => p.1 == k) = true
  · rw [jsInsert, if_pos hmem]
    exact foldl_objGet_map_overwrite o none hmem
  · have hmem' : k ∉ keysOf o := by
      intro hk
      rcases List.mem_map.mp hk with ⟨p, hp, rfl⟩
      exact hmem (List.any_eq_true.mpr ⟨p, hp, by simp⟩)
    rw [jsInsert_of_not_mem v hmem']
    rw [objGetFields, List.foldl_append]
    simp

theorem foldl_objGet_map_other {k k' : String} {v : JSValue} (hkk : k ≠ k') :
    ∀ (o : List (String × JSValue)) (acc : Option JSValue),
      (o.map (fun p => if p.1 == k' then (k', v) else p)).foldl
        (fun acc p => if p.1 == k then some p.2 else acc) acc =
      o.foldl (fun acc p => if p.1 == k then some p.2 else acc) acc := by
  intro o
  induction o with
  | nil => intro acc; rfl
  | cons p ps ih =>
    intro acc
    by_cases hp : (p.1 == k') = true
    · have hpk : (p.1 == k) = false := by
        have : p.1 = k' := by simpa using hp
        simp [this, Ne.symm hkk]
      rw [List.map_cons, if_pos hp, List.foldl_cons, List.foldl_cons,
        if_neg (by simp [Ne.symm hkk]), if_neg (by simp [hpk])]
      exact ih acc
    · rw [List.map_cons, if_neg (by simpa using hp), List.foldl_cons, List.foldl_cons]
      exact ih _

theorem objGet_jsInsert_other {o : List (String × JSValue)} {k k' : String} (v : JSValue)
    (h : k ≠ k') : objGetFields (jsInsert o k' v) k = objGetFields o k := by
  by_cases hmem : o.any (fun p => p.1 == k') = true
  · rw [jsInsert, if_pos hmem]
    exact foldl_objGet_map_other h o none
  · have hmem' : k' ∉ keysOf o := by
      intro hk
      rcases List.mem_map.mp hk with ⟨p, hp, rfl⟩
      exact hmem (List.any_eq_true.mpr ⟨p, hp, by simp⟩)
    rw [jsInsert_of_not_mem v hmem', objGetFields, List.foldl_append]
    rw [List.foldl_cons, if_neg (by simp [Ne.symm h])]
    rfl

theorem foldl_scopeInsert_fresh (ep : String) :
    ∀ (scopes : List String) (acc : List (String × JSValue)),
      scopes.Nodup → (∀ s ∈ scopes, scopeKey ep s ∉ keysOf acc) →
      scopes.foldl (fun a s => jsInsert a (scopeKey ep s) (.bool true)) acc =
        acc ++ scopes.map (fun s => (scopeKey ep s, .bool true)) := by
  intro scopes
  induction scopes with
  | nil => intro acc _ _; simp
  | cons s ss ih =>
    intro acc hnd hfresh
    rw [List.foldl_cons, jsInsert_of_not_mem _ (hfresh s (List.mem_cons_self s ss))]
    have hfresh2 : ∀ t ∈ ss, scopeKey ep t ∉ keysOf (acc ++ [(scopeKey ep s, JSValue.bool true)]) := by
      intro t ht
      rw [keysOf_append]
      intro hmem
      rcases List.mem_append.mp hmem with hl | hr
      · exact hfresh t (List.mem_cons_of_mem s ht) hl
      · have heq : scopeKey ep t = scopeKey ep s := by simpa [keysOf] using hr
        have : t = s := scopeKey_injective heq
        exact (List.nodup_cons.mp hnd).1 (this ▸ ht)
    rw [ih _ (List.Nodup.of_cons hnd) hfresh2]
    simp

theorem scopeKey_not_mem_std (ep s : String) (c : Credentials) (now : Int) :
    scopeKey ep s ∉ keysOf (stdClaims ep c now) := by
  intro h
  have hkeys : keysOf (stdClaims ep c now) = ["exp", "iss", "sub", "aud"] := rfl
  rw [hkeys] at h
  have hl := scopeKey_length ep s
  simp only [List.mem_cons, List.mem_singleton, List.not_mem_nil, or_false] at h
  rcases h with h | h | h | h <;>
    (have hlen := congrArg String.length h; rw [scopeKey_length] at hlen;
     simp only [show ("exp" : String).length = 3 from rfl,
       show ("iss" : String).length = 3 from rfl,
       show ("sub" : String).length = 3 from rfl,
       show ("aud" : String).length = 3 from rfl] at hlen; omega)

/-- Claim C1 (amended): for credentials whose comma-separated scopes are
pairwise distinct after trimming, the payload built by generateJWT is
exactly the four standard claims exp, iss, sub, aud followed by one
scope-boolean entry per scope — 4 + N entries in total — and its exp
claim equals the issue time plus 86400 seconds.  Duplicate scopes
collapse into a single entry, which is what the counterexample shows
and the only change forced on the original claim. -/
theorem c1_assertion_payload_shape (c : Credentials) (now : Int)
    (h : ((jsSplit ',' (c.metascopes.getD "ent_aem_cloud_api")).map jsTrim).Nodup) :
    generateJWTPayload c now =
      stdClaims (c.imsEndpoint.getD "ims-na1.adobelogin.com") c now ++
        ((jsSplit ',' (c.metascopes.getD "ent_aem_cloud_api")).map jsTrim).map
          (fun s => (scopeKey (c.imsEndpoint.getD "ims-na1.adobelogin.com") s,
                     JSValue.bool true)) ∧
    (generateJWTPayload c now).length =
      4 + (jsSplit ',' (c.metascopes.getD "ent_aem_cloud_api")).length ∧
    objGetFields (generateJWTPayload c now) "exp" = some (.num (now + 24 * 60 * 60)) := by
  have hmain : generateJWTPayload c now =
      stdClaims (c.imsEndpoint.getD "ims-na1.adobelogin.com") c now ++
        ((jsSplit ',' (c.metascopes.getD "ent_aem_cloud_api")).map jsTrim).map
          (fun s => (scopeKey (c.imsEndpoint.getD "ims-na1.adobelogin.com") s,
                     JSValue.bool true)) := by
    rw [generateJWTPayload]
    exact foldl_scopeInsert_fresh _ _ _ h
      (fun s _ => scopeKey_not_mem_std _ s c now)
  refine ⟨hmain, ?_, ?_⟩
  · rw [hmain]
    simp only [List.length_append, List.length_map, stdClaims, List.length_cons,
      List.length_nil]
    try omega
  · rw [hmain, objGetFields, List.foldl_append]
    have hstd : (stdClaims (c.imsEndpoint.getD "ims-na1.adobelogin.com") c now).foldl
        (fun acc p => if p.1 == "exp" then some p.2 else acc) none =
        some (.num (now + 24 * 60 * 60)) := rfl
    rw [hstd]
    refine foldl_objGet_of_no_key _ _ ?_
    intro p hp
    rcases List.mem_map.mp hp with ⟨s, _, rfl⟩
    simp only [beq_eq_false_iff_ne, ne_eq]
    intro he
    exact scopeKey_not_mem_std _ s c now (by rw [he]; exact List.mem_cons_self _ _)

theorem foldl_scopeInsert_lookup (ep : String) :
    ∀ (ts : List String) (acc : List (String × JSValue)) (k : String),
      ((∃ t ∈ ts, scopeKey ep t = k) ∨ objGetFields acc k = some (.bool true)) →
      objGetFields (ts.foldl (fun a t => jsInsert a (scopeKey ep t) (.bool true)) acc) k =
        some (.bool true) := by
  intro ts
  induction ts with
  | nil =>
    intro acc k h
    rcases h with ⟨t, ht, _⟩ | hacc
    · exact absurd ht (List.not_mem_nil t)
    · exact hacc
  | cons t ts ih =>
    intro acc k h
    rw [List.foldl_cons]
    by_cases hk : scopeKey ep t = k
    · refine ih _ k (Or.inr ?_)
      rw [← hk]
      exact objGet_jsInsert_same acc (scopeKey ep t) (.bool true)
    · rcases h with ⟨t', ht', he⟩ | hacc
      · rcases List.mem_cons.mp ht' with rfl | htail
        · exact absurd he hk
        · exact ih _ k (Or.inl ⟨t', htail, he⟩)
      · refine ih _ k (Or.inr ?_)
        rw [objGet_jsInsert_other _ (fun hkk => hk hkk.symm)]
        exact hacc

/-- Claim C2 (amended): every comma-separated scope, after trimming,
yields the payload entry "https://{endpoint}/s/{scope}": true; when the
metascopes field is absent the default scope ent_aem_cloud_api is used,
and when it is the empty string a single entry with the empty scope is
produced — generateJWT contains no scope validation and never fails
with a ValidationError. -/
theorem c2_scope_splitting (c : Credentials) (now : Int) :
    (∀ s ∈ jsSplit ',' (c.metascopes.getD "ent_aem_cloud_api"),
      objGetFields (generateJWTPayload c now)
        (scopeKey (c.imsEndpoint.getD "ims-na1.adobelogin.com") (jsTrim s)) =
        some (.bool true)) ∧
    (c.metascopes = none → generateJWTPayload c now =
      stdClaims (c.imsEndpoint.getD "ims-na1.adobelogin.com") c now ++
        [(scopeKey (c.imsEndpoint.getD "ims-na1.adobelogin.com") "ent_aem_cloud_api",
          .bool true)]) ∧
    (c.metascopes = some "" → generateJWTPayload c now =
      stdClaims (c.imsEndpoint.getD "ims-na1.adobelogin.com") c now ++
        [(scopeKey (c.imsEndpoint.getD "ims-na1.adobelogin.com") "", .bool true)]) := by
  refine ⟨?_, ?_, ?_⟩
  · intro s hs
    simp only [generateJWTPayload]
    exact foldl_scopeInsert_lookup _ _ _ _
      (Or.inl ⟨jsTrim s, List.mem_map_of_mem jsTrim hs, rfl⟩)
  · intro hnone
    simp only [generateJWTPayload, hnone, Option.getD_none]
    have hfold := foldl_scopeInsert_fresh (c.imsEndpoint.getD "ims-na1.adobelogin.com")
      ["ent_aem_cloud_api"] (stdClaims (c.imsEndpoint.getD "ims-na1.adobelogin.com") c now)
      (by simp) ?_
    · rw [show (jsSplit ',' "ent_aem_cloud_api").map jsTrim = ["ent_aem_cloud_api"] from rfl]
      rw [hfold]
      rfl
    · intro s hs
      rcases List.mem_singleton.mp hs with rfl
      exact scopeKey_not_mem_std _ _ c now
  · intro hsome
    simp only [generateJWTPayload, hsome, Option.getD_some]
    have hfold := foldl_scopeInsert_fresh (c.imsEndpoint.getD "ims-na1.adobelogin.com")
      [""] (stdClaims (c.imsEndpoint.getD "ims-na1.adobelogin.com") c now)
      (by simp) ?_
    · rw [show (jsSplit ',' "").map jsTrim = [""] from rfl]
      rw [hfold]
      rfl
    · intro s hs
      rcases List.mem_singleton.mp hs with rfl
      exact scopeKey_not_mem_std _ _ c now

/-- Claim C1 witness: the payload-shape theorem applied at concrete
credentials with the scope string "a, b". -/
theorem c1_assertion_payload_shape_witness :
    ((jsSplit ',' ((some "a, b").getD "ent_aem_cloud_api")).map jsTrim).Nodup ∧
    (generateJWTPayload ⟨"c", "t", "o", some "a, b", some "ep"⟩ 7).length =
      4 + (jsSplit ',' ((some "a, b").getD "ent_aem_cloud_api")).length :=
  ⟨by decide,
   (c1_assertion_payload_shape ⟨"c", "t", "o", some "a, b", some "ep"⟩ 7 (by decide)).2.1⟩

/-- Claim C1 counterexample: with the duplicate scopes string "a,a"
(N = 2 comma-separated scopes) the payload has 5 entries, not 4 + N = 6;
the two identical scope keys collapse into one object entry. -/
theorem c1_duplicate_scopes_violation :
    (jsSplit ',' "a,a").length = 2 ∧
    generateJWTPayload ⟨"c", "t", "o", some "a,a", none⟩ 0 =
      [("exp", .num 86400), ("iss", .str "o"), ("sub", .str "t"),
       ("aud", .str "https://ims-na1.adobelogin.com/c/c"),
       ("https://ims-na1.adobelogin.com/s/a", .bool true)] ∧
    (generateJWTPayload ⟨"c", "t", "o", some "a,a", none⟩ 0).length ≠ 4 + 2 := by
  refine ⟨rfl, rfl, ?_⟩
  decide

/-- Claim C2 witness: the splitting theorem applied at concrete
credentials with the scope string "a, b", showing the trimmed scope b
got its payload entry. -/
theorem c2_scope_splitting_witness :
    objGetFields (generateJWTPayload ⟨"c", "t", "o", some "a, b", none⟩ 0)
      (scopeKey "ims-na1.adobelogin.com" "b") = some (.bool true) := by
  have h := (c2_scope_splitting ⟨"c", "t", "o", some "a, b", none⟩ 0).1 " b" (by decide)
  exact h

/-- Claim C2 counterexample: with an empty scopes string — no scope
present in the input — generateJWT still returns a full payload
containing an empty-scope entry instead of failing with a
ValidationError; no such error path exists in the code. -/
theorem c2_validation_error_counterexample :
    generateJWTPayload ⟨"c", "t", "o", some "", none⟩ 0 =
      [("exp", .num 86400), ("iss", .str "o"), ("sub", .str "t"),
       ("aud", .str "https://ims-na1.adobelogin.com/c/c"),
       ("https://ims-na1.adobelogin.com/s/", .bool true)] := rfl

/-- Claim C5 witness: the layout theorem applied to the concrete input
[1, 2, 3]. -/
theorem c5_pkcs8_wrapper_layout_witness :
    ([1, 2, 3] : List Nat).length < 65536 ∧
    convertPKCS1ToPKCS8 [1, 2, 3] = patchedPrefix ([1, 2, 3] : List Nat).length ++ [1, 2, 3] :=
  ⟨by decide, (c5_pkcs8_wrapper_layout [1, 2, 3] (by decide)).1⟩

/-- Claim C9 (amended): isTokenExpired returns true when the token does
not split into exactly three dot-separated segments or when the header
or payload segment fails to decode, true when the decoded numeric exp
is at or before the current time, and false when exp is in the future.
The signature segment is never examined, so a token malformed only in
its third segment is not fail-safe expired — the change the
counterexample forces on the original claim. -/
theorem c9_expiry_decision (parse : String → Option JSValue) (nowMs : Int) (token : String) :
    ((jsSplit '.' token).length ≠ 3 → isTokenExpired parse nowMs token = true) ∧
    (decodeJWT parse token = none → isTokenExpired parse nowMs token = true) ∧
    (∀ payload e, decodeJWT parse token = some payload →
      objGet payload "exp" = some (.num e) → e * 1000 ≤ nowMs →
      isTokenExpired parse nowMs token = true) ∧
    (∀ payload e, decodeJWT parse token = some payload →
      objGet payload "exp" = some (.num e) → nowMs < e * 1000 →
      isTokenExpired parse nowMs token = false) := by
  refine ⟨?_, ?_, ?_, ?_⟩
  · intro h
    have hd : decodeJWT parse token = none := by
      simp only [decodeJWT]
      rw [if_neg h]
    simp only [isTokenExpired, hd]
  · intro hd
    simp only [isTokenExpired, hd]
  · intro payload e hd he hle
    simp only [isTokenExpired, hd, he, jsToNumber?]
    exact decide_eq_true hle
  · intro payload e hd he hlt
    simp only [isTokenExpired, hd, he, jsToNumber?]
    exact decide_eq_false (not_le.mpr hlt)

/-- Claim C9 witness: the expiry theorem applied to the concrete
one-segment token x, which is reported expired. -/
theorem c9_expiry_decision_witness :
    (jsSplit '.' "x").length ≠ 3 ∧ isTokenExpired (fun _ => none) 0 "x" = true :=
  ⟨by decide, (c9_expiry_decision (fun _ => none) 0 "x").1 (by decide)⟩

/-- Claim C9 counterexample: a token whose third segment # is not
base64url — malformed under the claim, which demands the fail-safe
true — still returns false, because its header and payload decode, its
exp lies in the future, and decodeJWT never touches the signature
segment. -/
theorem c9_signature_segment_counterexample :
    (jsSplit '.' "eyJhbGciOiJub25lIn0.eyJleHAiOjk5OTk5OTk5OTk5fQ.#").length = 3 ∧
    isB64UrlString "#" = false ∧
    isTokenExpired sigTokenParse 0 "eyJhbGciOiJub25lIn0.eyJleHAiOjk5OTk5OTk5OTk5fQ.#" =
      false :=
  ⟨rfl, rfl, rfl⟩

/-- Claim C10 (amended): a syntactically well-formed token whose
decoded payload object has no exp entry at all is reported not expired:
the multiplication against the missing exp is NaN and the comparison is
false, so the error branch is never reached. -/
theorem c10_missing_exp_not_expired (parse : String → Option JSValue) (nowMs : Int)
    (token : String) (payload : JSValue)
    (hd : decodeJWT parse token = some payload)
    (he : objGet payload "exp" = none) :
    isTokenExpired parse nowMs token = false := by
  simp only [isTokenExpired, hd, he]

/-- Claim C10 witness: the missing-exp theorem applied to a concrete
token whose payload is {iat: 1}. -/
theorem c10_missing_exp_not_expired_witness :
    isTokenExpired noExpParse 5 "eyJhbGciOiJub25lIn0.eyJpYXQiOjF9.sig" = false :=
  c10_missing_exp_not_expired noExpParse 5 _ (.obj [("iat", .num 1)]) rfl rfl

/-- Claim C10 counterexample: a payload with the non-numeric exp claim
"5" — a JSON string, hence no numeric exp claim — is coerced by the
multiplication and compared numerically, so isTokenExpired returns true
at a current time past 5000 milliseconds, not false as the claim as
stated requires. -/
theorem c10_string_exp_counterexample :
    decodeJWT strExpParse "eyJhbGciOiJub25lIn0.eyJleHAiOiI1In0.sig" =
      some (.obj [("exp", .str "5")]) ∧
    isTokenExpired strExpParse 1700000000000 "eyJhbGciOiJub25lIn0.eyJleHAiOiI1In0.sig" =
      true :=
  ⟨rfl, rfl⟩

theorem isPrefixOf_self_append (l t : List Char) : l.isPrefixOf (l ++ t) = true := by
  induction l with
  | nil => simp [List.isPrefixOf]
  | cons c cs ih => simp [List.isPrefixOf, ih]

theorem strStartsWith_append (a b : String) : strStartsWith (a ++ b) a = true := by
  rw [strStartsWith, str_data_append]
  exact isPrefixOf_self_append a.data b.data

/-- Claim C6 (amended): the path of every asset produced by
normalizeAsset is a string that is either empty — produced when no self
link matches — or begins with the canonical DAM root prefix
/content/dam; the original claim that every path begins with the prefix
fails on the empty case its own sources mention. -/
theorem c6_path_empty_or_dam_rooted (apiMatch : String → Option String)
    (uriDecode : String → String) (entity : JSValue) :
    ∃ p : String, (normalizeAsset apiMatch uriDecode entity).path = some (.str p) ∧
      (p = "" ∨ strStartsWith p "/content/dam" = true) := by
  simp only [normalizeAsset]
  refine ⟨_, rfl, ?_⟩
  rcases jsOrDefault
      (match findLink (match jsOrDefault (objGet entity "links") (.arr []) with
                       | .arr xs => xs
                       | _ => []) "self" with
       | some l => objGet l "href"
       | none => none) (.str "") with _ | b | n | s | xs | fs
  · exact Or.inl rfl
  · exact Or.inl rfl
  · exact Or.inl rfl
  · simp only [pathFromSelfLink]
    by_cases hs : (s != "") = true
    · rw [if_pos hs]
      rcases apiMatch s with _ | cap
      · exact Or.inl rfl
      · exact Or.inr (strStartsWith_append "/content/dam" (uriDecode cap))
    · rw [if_neg hs]
      exact Or.inl rfl
  · exact Or.inl rfl
  · exact Or.inl rfl

/-- Claim C6 counterexample: an entity with no links normalizes to a
path equal to the empty string, which does not begin with
/content/dam. -/
theorem c6_empty_path_counterexample :
    (normalizeAsset (fun _ => none) id (.obj [])).path = some (.str "") ∧
    strStartsWith "" "/content/dam" = false :=
  ⟨rfl, rfl⟩

/-- Claim C7 (amended): for an entities payload the total is the nested
properties srn:paging total whenever that value is present and truthy
(a nonzero number), and the entities list length when it is absent or
falsy; the input {entities: []} yields an empty asset list with total 0
and no error. -/
theorem c7_entities_total (apiMatch : String → Option String)
    (uriDecode : String → String) (response : JSValue) (es : List JSValue)
    (hent : objGet response "entities" = some (.arr es)) :
    (∀ t : Int, pagingTotal response = some (.num t) → t ≠ 0 →
      (normalizeListResponse apiMatch uriDecode response).total = .num t) ∧
    (pagingTotal response = none →
      (normalizeListResponse apiMatch uriDecode response).total = .num es.length) ∧
    (∀ v, pagingTotal response = some v → truthy v = false →
      (normalizeListResponse apiMatch uriDecode response).total = .num es.length) ∧
    normalizeListResponse apiMatch uriDecode (.obj [("entities", .arr [])]) =
      ⟨[], none, .num 0, .obj [("entities", .arr [])]⟩ := by
  refine ⟨?_, ?_, ?_, rfl⟩
  · intro t hpt ht
    simp only [normalizeListResponse, hent, entitiesResult, jsOrDefault, hpt]
    rw [if_pos (by simp [truthy, ht])]
  · intro hpt
    simp only [normalizeListResponse, hent, entitiesResult, jsOrDefault, hpt]
  · intro v hpt hv
    simp only [normalizeListResponse, hent, entitiesResult, jsOrDefault, hpt]
    rw [if_neg (by simp [hv])]

/-- Claim C7 witness: the total theorem applied to a concrete payload
whose srn:paging total is the nonzero number 5. -/
theorem c7_entities_total_witness :
    (normalizeListResponse (fun _ => none) id
      (.obj [("entities", .arr [.obj []]),
             ("properties", .obj [("srn:paging", .obj [("total", .num 5)])])])).total =
      .num 5 :=
  (c7_entities_total (fun _ => none) id
      (.obj [("entities", .arr [.obj []]),
             ("properties", .obj [("srn:paging", .obj [("total", .num 5)])])])
      [.obj []] rfl).1 5 rfl (by decide)

/-- Claim C7 counterexample: a payload whose srn:paging total is
present but 0 gets total 1 — the length of its one-element entities
list — because the or-fallback treats 0 as falsy, contradicting the
claim that a present paging total is always used. -/
theorem c7_zero_total_counterexample :
    pagingTotal (.obj [("entities", .arr [.obj []]),
        ("properties", .obj [("srn:paging", .obj [("total", .num 0)])])]) = some (.num 0) ∧
    (normalizeListResponse (fun _ => none) id
      (.obj [("entities", .arr [.obj []]),
        ("properties", .obj [("srn:paging", .obj [("total", .num 0)])])])).total = .num 1 :=
  ⟨rfl, rfl⟩

/-- Claim C8: the children branch maps each child through its own id
and name fields: a truthy id is used directly, a missing id falls back
deterministically to the name (an id is never invented), a missing path
defaults to /content/dam/ joined with the name, and the payload
{children:[{name:"a.jpg", id:"1"}]} yields exactly one asset whose path
is /content/dam/a.jpg. -/
theorem c8_children_mapping (apiMatch : String → Option String)
    (uriDecode : String → String) (response : JSValue) (cs : List JSValue)
    (hne : entitiesShape response = false)
    (hch : objGet response "children" = some (.arr cs)) :
    (normalizeListResponse apiMatch uriDecode response).assets = cs.map childAsset ∧
    (∀ child v, objGet child "id" = some v → truthy v = true →
      (childAsset child).id = some v) ∧
    (∀ child, objGet child "id" = none → (childAsset child).id = objGet child "name") ∧
    (∀ child s, objGet child "path" = none → objGet child "name" = some (.str s) →
      (childAsset child).path = some (.str ("/content/dam/" ++ s))) ∧
    (normalizeListResponse apiMatch uriDecode
        (.obj [("children", .arr [.obj [("name", .str "a.jpg"), ("id", .str "1")]])])).assets =
      [{ id := some (.str "1"), name := some (.str "a.jpg"),
         path := some (.str "/content/dam/a.jpg"), title := some (.str "a.jpg"),
         size := some (.num 0),
         metadata := some (.obj [("name", .str "a.jpg"), ("id", .str "1")]) }] := by
  refine ⟨?_, ?_, ?_, ?_, rfl⟩
  · have hmain : normalizeListResponse apiMatch uriDecode response =
        childrenResult response cs := by
      simp only [normalizeListResponse]
      rcases hev : objGet response "entities" with _ | ev
      · simp only [hch]
      · cases ev with
        | arr xs => rw [entitiesShape, hev] at hne; simp at hne
        | null => simp only [hch]
        | bool b => simp only [hch]
        | num n => simp only [hch]
        | str s => simp only [hch]
        | obj fs => simp only [hch]
    rw [hmain]
    rfl
  · intro child v hid hv
    simp only [childAsset, jsOr, hid, hv, if_true]
  · intro child hid
    simp only [childAsset, jsOr, hid]
  · intro child s hpath hname
    simp only [childAsset, jsOr, hpath, jsTemplate, hname, toJSString, toJSStringFuel]

/-- Claim C8 witness: the children theorem applied to the concrete
payload with an empty children list. -/
theorem c8_children_mapping_witness :
    (normalizeListResponse (fun _ => none) id (.obj [("children", .arr [])])).assets = [] :=
  (c8_children_mapping (fun _ => none) id (.obj [("children", .arr [])]) [] rfl rfl).1

set_option maxHeartbeats 1000000 in
/-- Claim C4: normalizeListResponse dispatches on payload shape in the
fixed priority order — entities list, then children list, then flat
primary-type marker — with the first matching shape winning, exactly as
the ordered predicate table specListDispatch prescribes; for an object
payload matching none of the shapes it returns an empty asset list, and
the raw payload is preserved in every branch; the function is total and
never fails. -/
theorem c4_dispatch_priority (apiMatch : String → Option String)
    (uriDecode : String → String) (fields : List (String × JSValue)) :
    normalizeListResponse apiMatch uriDecode (.obj fields) =
      specListDispatch apiMatch uriDecode (.obj fields) ∧
    (entitiesShape (.obj fields) = false → childrenShape (.obj fields) = false →
      flatShape (.obj fields) = false →
      normalizeListResponse apiMatch uriDecode (.obj fields) = unknownResult (.obj fields)) ∧
    (normalizeListResponse apiMatch uriDecode (.obj fields)).raw = .obj fields := by
  have key : ∀ r : JSValue, normalizeListResponse apiMatch uriDecode r =
      specListDispatch apiMatch uriDecode r := by
    intro r
    rcases he : objGet r "entities" with _ | (_ | b | n | s | xs | fs) <;>
      rcases hc : objGet r "children" with _ | (_ | b2 | n2 | s2 | xs2 | fs2) <;>
        rcases hp : objGet r "jcr:primaryType" with _ | pv <;>
          simp only [normalizeListResponse, specListDispatch, entitiesShape, childrenShape,
            flatShape, he, hc, hp, if_true, if_false] <;> rfl
  have raws : ∀ r : JSValue, (normalizeListResponse apiMatch uriDecode r).raw = r := by
    intro r
    rw [key r, specListDispatch]
    by_cases h1 : entitiesShape r = true
    · rw [if_pos h1]
      rcases objGet r "entities" with _ | (_ | b | n | s | xs | fs) <;> rfl
    · rw [if_neg h1]
      by_cases h2 : childrenShape r = true
      · rw [if_pos h2]
        rcases objGet r "children" with _ | (_ | b2 | n2 | s2 | xs2 | fs2) <;> rfl
      · rw [if_neg h2]
        by_cases h3 : flatShape r = true
        · rw [if_pos h3]
          rcases objGet r "jcr:primaryType" with _ | pv <;> rfl
        · rw [if_neg h3]
          rfl
  refine ⟨key (.obj fields), ?_, raws (.obj fields)⟩
  intro h1 h2 h3
  rw [key (.obj fields), specListDispatch, h1, h2, h3]
  rfl

/-- Claim C4 witness: the dispatch theorem applied to a concrete
payload matching no shape, producing the unknown-shape fallback. -/
theorem c4_dispatch_priority_witness :
    entitiesShape (.obj [("x", .num 1)]) = false ∧
    normalizeListResponse (fun _ => none) id (.obj [("x", .num 1)]) =
      unknownResult (.obj [("x", .num 1)]) :=
  ⟨rfl, (c4_dispatch_priority (fun _ => none) id [("x", .num 1)]).2.1 rfl rfl rfl⟩

theorem keysOf_map_update {α : Type} (o : List (String × α)) (k : String)
    (g : String × α → α) :
    keysOf (o.map (fun p => if p.1 == k then (k, g p) else p)) = keysOf o := by
  induction o with
  | nil => rfl
  | cons p ps ih =>
    simp only [keysOf, List.map_cons] at ih ⊢
    by_cases hp : (p.1 == k) = true
    · rw [if_pos hp, ih]
      have hpk : p.1 = k := by simpa using hp
      rw [hpk]
    · rw [if_neg hp, ih]

theorem keysOf_append2 {α : Type} (a b : List (String × α)) :
    keysOf (a ++ b) = keysOf a ++ keysOf b := by
  simp [keysOf]

theorem mem_keysOf_iff {α : Type} {l : List (String × α)} {k : String} :
    k ∈ keysOf l ↔ ∃ q ∈ l, q.1 = k := by
  simp [keysOf, List.mem_map]

theorem keysOf_jsInsert (o : List (String × JSValue)) (k : String) (v : JSValue) :
    keysOf (jsInsert o k v) =
      if o.any (fun p => p.1 == k) then keysOf o else keysOf o ++ [k] := by
  rw [jsInsert]
  by_cases h : o.any (fun p => p.1 == k) = true
  · rw [if_pos h, if_pos h]
    exact keysOf_map_update o k (fun _ => v)
  · rw [if_neg h, if_neg h, keysOf_append2]
    rfl

theorem keysOf_nsInsert (nss : List (String × List (String × JSValue))) (ns k : String)
    (v : JSValue) :
    keysOf (nsInsert nss ns k v) =
      if nss.any (fun p => p.1 == ns) then keysOf nss else keysOf nss ++ [ns] := by
  rw [nsInsert]
  by_cases h : nss.any (fun p => p.1 == ns) = true
  · rw [if_pos h, if_pos h]
    exact keysOf_map_update nss ns (fun p => jsInsert p.2 k v)
  · rw [if_neg h, if_neg h, keysOf_append2]
    rfl

theorem mem_keysOf_jsInsert_self (o : List (String × JSValue)) (k : String) (v : JSValue) :
    k ∈ keysOf (jsInsert o k v) := by
  rw [keysOf_jsInsert]
  by_cases h : o.any (fun p => p.1 == k) = true
  · rw [if_pos h]
    rcases List.any_eq_true.mp h with ⟨p, hp, hpk⟩
    exact mem_keysOf_iff.mpr ⟨p, hp, by simpa using hpk⟩
  · rw [if_neg h]
    exact List.mem_append_right _ (List.mem_singleton_self k)

theorem mem_keysOf_jsInsert_of_mem {o : List (String × JSValue)} {a : String}
    (k : String) (v : JSValue) (h : a ∈ keysOf o) : a ∈ keysOf (jsInsert o k v) := by
  rw [keysOf_jsInsert]
  by_cases hm : o.any (fun p => p.1 == k) = true
  · rwa [if_pos hm]
  · rw [if_neg hm]
    exact List.mem_append_left _ h

theorem mem_jsInsert {o : List (String × JSValue)} {k : String} {v : JSValue}
    {q : String × JSValue} (h : q ∈ jsInsert o k v) : q ∈ o ∨ q.1 = k := by
  rw [jsInsert] at h
  by_cases hm : o.any (fun p => p.1 == k) = true
  · rw [if_pos hm] at h
    rcases List.mem_map.mp h with ⟨p, hp, hq⟩
    by_cases hpk : (p.1 == k) = true
    · rw [if_pos hpk] at hq
      right
      rw [← hq]
    · rw [if_neg hpk] at hq
      left
      exact hq ▸ hp
  · rw [if_neg hm] at h
    rcases List.mem_append.mp h with hl | hr
    · exact Or.inl hl
    · right
      rcases List.mem_singleton.mp hr with rfl
      rfl

theorem find?_cons_eq {α : Type} (f : α → Bool) (x : α) (xs : List α) :
    (x :: xs).find? f = if f x = true then some x else xs.find? f := by
  by_cases hx : f x = true
  · rw [if_pos hx]
    exact List.find?_cons_of_pos _ hx
  · rw [if_neg hx]
    exact List.find?_cons_of_neg _ (by simpa using hx)

theorem find?_append_of_some {α : Type} {l₁ l₂ : List α} {f : α → Bool} {a : α}
    (h : l₁.find? f = some a) : (l₁ ++ l₂).find? f = some a := by
  induction l₁ with
  | nil => simp [List.find?] at h
  | cons x xs ih =>
    rw [find?_cons_eq f x xs] at h
    rw [List.cons_append, find?_cons_eq f x (xs ++ l₂)]
    by_cases hx : f x = true
    · rwa [if_pos hx] at h ⊢
    · rw [if_neg hx] at h ⊢
      exact ih h

theorem find?_append_of_none {α : Type} {l₁ : List α} (l₂ : List α) {f : α → Bool}
    (h : l₁.find? f = none) : (l₁ ++ l₂).find? f = l₂.find? f := by
  induction l₁ with
  | nil => rfl
  | cons x xs ih =>
    rw [find?_cons_eq f x xs] at h
    rw [List.cons_append, find?_cons_eq f x (xs ++ l₂)]
    by_cases hx : f x = true
    · rw [if_pos hx] at h
      exact absurd h (by simp)
    · rw [if_neg hx] at h ⊢
      exact ih h

theorem find?_map_update {α : Type} (o : List (String × α)) (k ns : String)
    (g : String × α → α) :
    (o.map (fun p => if p.1 == k then (k, g p) else p)).find? (fun p => p.1 == ns) =
      Option.map (fun p => if p.1 == k then (k, g p) else p)
        (o.find? (fun p => p.1 == ns)) := by
  induction o with
  | nil => rfl
  | cons p ps ih =>
    rw [List.map_cons,
      find?_cons_eq (fun p => p.1 == ns) (if (p.1 == k) = true then (k, g p) else p)
        (ps.map (fun p => if p.1 == k then (k, g p) else p)),
      find?_cons_eq (fun p => p.1 == ns) p ps]
    have hfst : ((if (p.1 == k) = true then (k, g p) else p).1 == ns) = (p.1 == ns) := by
      by_cases hp : (p.1 == k) = true
      · have hpk : p.1 = k := by simpa using hp
        rw [if_pos hp]
        simp [hpk]
      · rw [if_neg hp]
    by_cases hns : (p.1 == ns) = true
    · rw [if_pos (show ((if (p.1 == k) = true then (k, g p) else p).1 == ns) = true from by
        rw [hfst]; exact hns), if_pos hns]
      rfl
    · rw [if_neg (show ¬((if (p.1 == k) = true then (k, g p) else p).1 == ns) = true from by
        rw [hfst]; exact hns), if_neg hns]
      exact ih

theorem find?_pred {α : Type} {f : α → Bool} {a : α} :
    ∀ {l : List α}, l.find? f = some a → f a = true := by
  intro l
  induction l with
  | nil => intro h; simp [List.find?] at h
  | cons x xs ih =>
    intro h
    rw [find?_cons_eq f x xs] at h
    by_cases hx : f x = true
    · rw [if_pos hx] at h
      cases h
      exact hx
    · rw [if_neg hx] at h
      exact ih h

theorem bucketKeys_nsInsert_mono {nss : List (String × List (String × JSValue))}
    {ns' a : String} (ns k : String) (v : JSValue)
    (h : a ∈ bucketKeys nss ns') : a ∈ bucketKeys (nsInsert nss ns k v) ns' := by
  rw [bucketKeys] at h
  rcases hf : nss.find? (fun p => p.1 == ns') with _ | p
  · rw [hf] at h
    exact absurd h (List.not_mem_nil a)
  · rw [hf] at h
    rw [nsInsert]
    by_cases hany : nss.any (fun p => p.1 == ns) = true
    · rw [if_pos hany, bucketKeys,
        find?_map_update nss ns ns' (fun p => jsInsert p.2 k v), hf]
      by_cases hp : (p.1 == ns) = true
      · show a ∈ keysOf (if (p.1 == ns) = true then (ns, jsInsert p.2 k v) else p).2
        rw [if_pos hp]
        exact mem_keysOf_jsInsert_of_mem k v h
      · show a ∈ keysOf (if (p.1 == ns) = true then (ns, jsInsert p.2 k v) else p).2
        rw [if_neg hp]
        exact h
    · rw [if_neg hany, bucketKeys, find?_append_of_some hf]
      exact h

theorem mem_bucketKeys_nsInsert_self (nss : List (String × List (String × JSValue)))
    (ns k : String) (v : JSValue) : k ∈ bucketKeys (nsInsert nss ns k v) ns := by
  rw [nsInsert]
  by_cases hany : nss.any (fun p => p.1 == ns) = true
  · rcases hq : nss.find? (fun p => p.1 == ns) with _ | q
    · rcases List.any_eq_true.mp hany with ⟨p₀, hp₀, hp₀ns⟩
      have := List.find?_eq_none.mp hq p₀ hp₀
      simp [hp₀ns] at this
    · rw [if_pos hany, bucketKeys,
        find?_map_update nss ns ns (fun p => jsInsert p.2 k v), hq]
      have hqns : (q.1 == ns) = true :=
        @find?_pred (String × List (String × JSValue)) (fun p => p.1 == ns) q nss hq
      show k ∈ keysOf (if (q.1 == ns) = true then (ns, jsInsert q.2 k v) else q).2
      rw [if_pos hqns]
      exact mem_keysOf_jsInsert_self q.2 k v
  · have hfnone : nss.find? (fun p => p.1 == ns) = none := by
      rw [List.find?_eq_none]
      intro p hp
      have := List.any_eq_false.mp (Bool.eq_false_iff.mpr hany) p hp
      simpa using this
    rw [if_neg hany, bucketKeys, find?_append_of_none _ hfnone,
      find?_cons_eq (fun p => p.1 == ns) (ns, [(k, v)]) [], if_pos (by simp)]
    exact List.mem_singleton_self k

theorem mem_nsInsert {nss : List (String × List (String × JSValue))} {ns k : String}
    {v : JSValue} {p' : String × List (String × JSValue)}
    (hp' : p' ∈ nsInsert nss ns k v) :
    ∀ q ∈ p'.2, (∃ p₀ ∈ nss, p₀.1 = p'.1 ∧ q ∈ p₀.2) ∨ (q.1 = k ∧ p'.1 = ns) := by
  intro q hq
  rw [nsInsert] at hp'
  by_cases hany : nss.any (fun p => p.1 == ns) = true
  · rw [if_pos hany] at hp'
    rcases List.mem_map.mp hp' with ⟨p₀, hp₀, hfp⟩
    by_cases hp₀ns : (p₀.1 == ns) = true
    · rw [if_pos hp₀ns] at hfp
      have hp'1 : p'.1 = ns := by rw [← hfp]
      have hp'2 : p'.2 = jsInsert p₀.2 k v := by rw [← hfp]
      rw [hp'2] at hq
      rcases mem_jsInsert hq with hmem | hkey
      · refine Or.inl ⟨p₀, hp₀, ?_, hmem⟩
        have h1 : p₀.1 = ns := by simpa using hp₀ns
        rw [h1, hp'1]
      · exact Or.inr ⟨hkey, hp'1⟩
    · rw [if_neg hp₀ns] at hfp
      exact Or.inl ⟨p₀, hp₀, by rw [hfp], hfp ▸ hq⟩
  · rw [if_neg hany] at hp'
    rcases List.mem_append.mp hp' with hl | hr
    · exact Or.inl ⟨p', hl, rfl, hq⟩
    · rcases List.mem_singleton.mp hr with rfl
      rcases List.mem_singleton.mp hq with rfl
      exact Or.inr ⟨rfl, rfl⟩

theorem eq_of_nodup_keys {α : Type} :
    ∀ {l : List (String × α)}, (keysOf l).Nodup →
      ∀ {p p' : String × α}, p ∈ l → p' ∈ l → p.1 = p'.1 → p = p' := by
  intro l
  induction l with
  | nil =>
    intro _ p p' hp _ _
    exact absurd hp (List.not_mem_nil p)
  | cons a as ih =>
    intro hnd p p' hp hp' he
    rw [show keysOf (a :: as) = a.1 :: keysOf as from rfl, List.nodup_cons] at hnd
    rcases List.mem_cons.mp hp with rfl | hpt
    · rcases List.mem_cons.mp hp' with rfl | hpt'
      · rfl
      · have : p.1 ∈ keysOf as := by
          rw [he]
          exact mem_keysOf_iff.mpr ⟨p', hpt', rfl⟩
        exact absurd this hnd.1
    · rcases List.mem_cons.mp hp' with rfl | hpt'
      · have : p'.1 ∈ keysOf as := by
          rw [← he]
          exact mem_keysOf_iff.mpr ⟨p, hpt, rfl⟩
        exact absurd this hnd.1
      · exact ih hnd.2 hpt hpt' he

theorem metaStep_inv {sch : MetadataSchema} (kv : String × JSValue) (h : MetaInv sch) :
    MetaInv (metaStep sch kv) := by
  obtain ⟨h0, h1, h2, h3⟩ := h
  rw [metaStep]
  by_cases hskip : isSkippedJcr kv.1 = true
  · rw [if_pos hskip]
    by_cases hstruct : (kv.1 == "jcr:primaryType" || kv.1 == "jcr:mixinTypes") = true
    · rw [if_pos hstruct]
      refine ⟨?_, ?_, ?_, h3⟩
      · intro q hq
        rcases mem_jsInsert hq with hmem | hkey
        · exact h0 q hmem
        · have hor : kv.1 = "jcr:primaryType" ∨ kv.1 = "jcr:mixinTypes" := by
            simpa using hstruct
          rcases hor with h' | h'
          · exact Or.inr (Or.inl (by rw [hkey, h']))
          · exact Or.inr (Or.inr (by rw [hkey, h']))
      · intro p hp q hq
        obtain ⟨hqk, hns⟩ := h1 p hp q hq
        exact ⟨mem_keysOf_jsInsert_of_mem _ _ hqk, hns⟩
      · intro q hq hq'
        rcases mem_jsInsert hq with hmem | hkey
        · exact h2 q hmem hq'
        · exfalso
          rw [hkey] at hq'
          rw [hq'] at hskip
          exact Bool.false_ne_true hskip
    · rw [if_neg hstruct]
      exact ⟨h0, h1, h2, h3⟩
  · rw [if_neg hskip]
    have hskip' : isSkippedJcr kv.1 = false := by simpa using hskip
    refine ⟨?_, ?_, ?_, ?_⟩
    · intro q hq
      rcases mem_jsInsert hq with hmem | hkey
      · exact h0 q hmem
      · exact Or.inl (by rw [hkey]; exact hskip')
    · intro p hp q hq
      rcases mem_nsInsert hp q hq with ⟨p₀, hp₀, hfst, hqmem⟩ | ⟨hqk, hpns⟩
      · obtain ⟨hqkeys, hns⟩ := h1 p₀ hp₀ q hqmem
        exact ⟨mem_keysOf_jsInsert_of_mem _ _ hqkeys, by rw [← hfst]; exact hns⟩
      · constructor
        · rw [hqk]
          exact mem_keysOf_jsInsert_self _ _ _
        · rw [hpns, hqk]
    · intro q hq hq'
      rcases mem_jsInsert hq with hmem | hkey
      · exact bucketKeys_nsInsert_mono _ _ _ (h2 q hmem hq')
      · rw [hkey]
        exact mem_bucketKeys_nsInsert_self _ _ _ _
    · rw [keysOf_nsInsert]
      by_cases hany : sch.namespaces.any (fun p => p.1 == namespaceOf kv.1) = true
      · rw [if_pos hany]
        exact h3
      · rw [if_neg hany]
        have hfresh : namespaceOf kv.1 ∉ keysOf sch.namespaces := by
          intro hm
          rcases mem_keysOf_iff.mp hm with ⟨p, hp, hfst⟩
          exact hany (List.any_eq_true.mpr ⟨p, hp, by simp [hfst]⟩)
        simp [List.nodup_append, h3, hfresh]

theorem foldl_metaStep_inv :
    ∀ (l : List (String × JSValue)) (sch : MetadataSchema),
      MetaInv sch → MetaInv (l.foldl metaStep sch) := by
  intro l
  induction l with
  | nil =>
    intro sch h
    exact h
  | cons kv kvs ih =>
    intro sch h
    rw [List.foldl_cons]
    exact ih _ (metaStep_inv kv h)

theorem normalizeMetadataSchema_inv (response : List (String × JSValue)) :
    MetaInv (normalizeMetadataSchema response) :=
  foldl_metaStep_inv response ⟨[], []⟩
    ⟨fun q hq => absurd hq (List.not_mem_nil q),
     fun p hp => absurd hp (List.not_mem_nil p),
     fun q hq => absurd hq (List.not_mem_nil q),
     List.nodup_nil⟩

/-- Claim C3 (amended): for every input object, every key of a
namespace bucket appears verbatim in allProperties, and every key of
allProperties other than the retained structural keys jcr:primaryType
and jcr:mixinTypes appears in exactly one namespace bucket; the empty
input yields both structures empty.  The two structural keys are stored
in allProperties but skipped before bucketing, which is the only change
the counterexample forces. -/
theorem c3_schema_key_consistency (response : List (String × JSValue)) :
    (∀ k, k ∈ nsFlatKeys (normalizeMetadataSchema response) →
      k ∈ keysOf (normalizeMetadataSchema response).properties) ∧
    (∀ k, k ∈ keysOf (normalizeMetadataSchema response).properties →
      k ≠ "jcr:primaryType" → k ≠ "jcr:mixinTypes" →
      ∃! p, p ∈ (normalizeMetadataSchema response).namespaces ∧ k ∈ keysOf p.2) ∧
    normalizeMetadataSchema [] = ⟨[], []⟩ := by
  obtain ⟨h0, h1, h2, h3⟩ := normalizeMetadataSchema_inv response
  refine ⟨?_, ?_, rfl⟩
  · intro k hk
    rw [nsFlatKeys] at hk
    rcases List.mem_flatMap.mp hk with ⟨p, hp, hkp⟩
    rcases mem_keysOf_iff.mp hkp with ⟨q, hq, rfl⟩
    exact (h1 p hp q hq).1
  · intro k hk hk1 hk2
    rcases mem_keysOf_iff.mp hk with ⟨q, hq, rfl⟩
    have hskip : isSkippedJcr q.1 = false := by
      rcases h0 q hq with h | h | h
      · exact h
      · exact absurd h hk1
      · exact absurd h hk2
    have hbk := h2 q hq hskip
    rw [bucketKeys] at hbk
    rcases hf : (normalizeMetadataSchema response).namespaces.find?
        (fun p => p.1 == namespaceOf q.1) with _ | p
    · rw [hf] at hbk
      exact absurd hbk (List.not_mem_nil _)
    · rw [hf] at hbk
      refine ⟨p, ⟨List.mem_of_find?_eq_some hf, hbk⟩, ?_⟩
      rintro p' ⟨hp', hkp'⟩
      have hpns : p.1 = namespaceOf q.1 := by
        have := @find?_pred (String × List (String × JSValue))
          (fun p => p.1 == namespaceOf q.1) p _ hf
        simpa using this
      rcases mem_keysOf_iff.mp hkp' with ⟨q', hq', hfst⟩
      have hp'ns : p'.1 = namespaceOf q.1 := by
        have h := (h1 p' hp' q' hq').2
        rw [h, hfst]
      exact eq_of_nodup_keys h3 hp' (List.mem_of_find?_eq_some hf) (by rw [hp'ns, hpns])

/-- Claim C3 witness: the consistency theorem applied to the concrete
input with the single key dc:title, locating its unique bucket. -/
theorem c3_schema_key_consistency_witness :
    ∃! p, p ∈ (normalizeMetadataSchema [("dc:title", .str "Foo")]).namespaces ∧
      "dc:title" ∈ keysOf p.2 :=
  (c3_schema_key_consistency [("dc:title", .str "Foo")]).2.1 "dc:title"
    (by decide) (by decide) (by decide)

/-- Claim C3 counterexample: on the input holding only jcr:primaryType
the key is retained in allProperties while the namespace buckets stay
empty, so the flattened byNamespace key set is strictly smaller than
the allProperties key set. -/
theorem c3_structural_key_counterexample :
    keysOf (normalizeMetadataSchema [("jcr:primaryType", .str "dam:Asset")]).properties =
      ["jcr:primaryType"] ∧
    (normalizeMetadataSchema [("jcr:primaryType", .str "dam:Asset")]).namespaces = [] ∧
    nsFlatKeys (normalizeMetadataSchema [("jcr:primaryType", .str "dam:Asset")]) = [] :=
  ⟨rfl, rfl, rfl⟩
